import Mathlib

/-!
Verification development for the clients data-access layer of the
backend-gateway service.

The layer under study is `ClientsRepository` (dual ORM-style and raw-SQL
CRUD paths over a single `clients` table) together with `ClientsService`
(existence checks and not-found translation).  The database table is
modelled as a list of rows plus a fresh-id counter; timestamps are a `Nat`
clock passed explicitly to every writing operation; the `jsonb` metadata
column is modelled by an explicit JSON value type.
-/

/-- A JSON document, as stored in the nullable `metadata` jsonb column
(TypeScript type `Record<string, any> | null`). -/
inductive Json where
  | null
  | bool (b : Bool)
  | num (n : Int)
  | str (s : String)
  | arr (elems : List Json)
  | obj (fields : List (String × Json))
deriving Repr

/-- A row of the `clients` table (the `IClient` record shape: columns
`id, name, metadata, created_at, updated_at`).  Identifiers are
server-generated and modelled as naturals drawn from a fresh-id counter;
timestamps are naturals. -/
structure Client where
  id : Nat
  name : String
  metadata : Option Json
  created_at : Nat
  updated_at : Nat
deriving Repr

/-- The state of the `clients` table: its rows in physical order plus the
supply of server-generated identifiers (primary keys never repeat). -/
structure ClientsTable where
  rows : List Client
  nextId : Nat
deriving Repr

/-- `CreateClientsDto`: `name` is `string` in TypeScript, but the value that
reaches the database at runtime may be absent (`none` models a null that
violates the column's NOT NULL constraint — the invalid-batch scenario).
`metadata?: Record<string,any> | null` is tri-state: `none` = omitted,
`some none` = explicit null, `some (some j)` = a document. -/
structure CreateClientsDto where
  name : Option String
  metadata : Option (Option Json)
deriving Repr

/-- `UpdateClientsDto`: both fields optional; `metadata` is tri-state
(absent / explicit null / value). -/
structure UpdateClientsDto where
  name : Option String
  metadata : Option (Option Json)
deriving Repr

/-- Persistence-layer errors: `P2025` is the Prisma "record not found"
code caught by the repository; `notNullViolation` models a database
constraint violation (e.g. NULL into the NOT NULL `name` column). -/
inductive PrismaError where
  | P2025
  | notNullViolation
deriving Repr, DecidableEq

/-- Rows ordered by `created_at` descending (`ORDER BY created_at DESC`,
also Prisma's `orderBy: { created_at: 'desc' }`); stable insertion sort so
the model is deterministic. -/
def insertByCreatedAtDesc (c : Client) : List Client → List Client
  | [] => [c]
  | r :: rs =>
    if r.created_at ≥ c.created_at then r :: insertByCreatedAtDesc c rs
    else c :: r :: rs

/-- Sort a row list by `created_at` descending (stable). -/
def orderByCreatedAtDesc (rows : List Client) : List Client :=
  rows.foldr insertByCreatedAtDesc []

/-! ### The Prisma-client collaborator

Modelled from the spec: the generated Prisma client for the `clients`
model is produced from `prisma/schema.prisma`, which is code of this
repository not present under `src/` (only its callers are).  Its CRUD
semantics below follow the spec's repository contract and table shape:
server-assigned `id`, `created_at = updated_at = now` at insert,
`updated_at` refreshed as part of every write, `P2025` raised when the
targeted row is missing, and an update supplied no fields at all degrades
to a plain read-by-id with no write performed. -/

/-- Modelled from the spec: `prisma.clients.findMany({orderBy: {created_at: 'desc'}})`. -/
def clientsFindMany (t : ClientsTable) : List Client :=
  orderByCreatedAtDesc t.rows

/-- Modelled from the spec: `prisma.clients.findUnique({where: {id}})` —
the unique row with the given primary key, or null. -/
def clientsFindUnique (id : Nat) (t : ClientsTable) : Option Client :=
  t.rows.find? (fun r => r.id == id)

/-- Modelled from the spec: `prisma.clients.create({data})` — inserts a row
with a server-generated id and `created_at = updated_at = now`.  A missing
`name` (JS `undefined`/`null` reaching the NOT NULL column) fails with a
constraint violation; a `metadata` key that is absent or `null` stores SQL
NULL (`Option.join` collapses the tri-state to the stored column value). -/
def clientsCreate (now : Nat) (name : Option String) (metadata : Option (Option Json))
    (t : ClientsTable) : Except PrismaError (Client × ClientsTable) :=
  match name with
  | none => .error .notNullViolation
  | some n =>
    let c : Client := ⟨t.nextId, n, metadata.join, now, now⟩
    .ok (c, ⟨t.rows ++ [c], t.nextId + 1⟩)

/-- The effect of a partial update on one row: supplied fields replace the
stored ones, omitted fields keep their prior values, `updated_at` is
refreshed to `now` as part of the same write, `id` and `created_at` are
untouched.  This is the shared meaning of the applied field set in both the
ORM write and the generated `SET` clause. -/
def applyUpdate (now : Nat) (uname : Option String) (umeta : Option (Option Json))
    (r : Client) : Client :=
  ⟨r.id,
   (match uname with | some n => n | none => r.name),
   (match umeta with | some m => m | none => r.metadata),
   r.created_at, now⟩

/-- Modelled from the spec: `prisma.clients.update({where: {id}, data})`.
`uname`/`umeta` record which fields the `data` object carries.  A missing
row raises `P2025`.  When `data` carries no field at all the call degrades
to a plain read of the row (no write, `updated_at` untouched); otherwise
the supplied fields are applied and `updated_at` is refreshed as part of
the same write. -/
def clientsUpdate (now : Nat) (id : Nat) (uname : Option String)
    (umeta : Option (Option Json)) (t : ClientsTable) :
    Except PrismaError (Client × ClientsTable) :=
  match t.rows.find? (fun r => r.id == id) with
  | none => .error .P2025
  | some c =>
    match uname, umeta with
    | none, none => .ok (c, t)
    | _, _ =>
      .ok (applyUpdate now uname umeta c,
           ⟨t.rows.map (fun r => if r.id == id then applyUpdate now uname umeta r else r),
            t.nextId⟩)

/-- Modelled from the spec: `prisma.clients.delete({where: {id}})` —
removes the row, raising `P2025` when it is missing. -/
def clientsDelete (id : Nat) (t : ClientsTable) :
    Except PrismaError (Client × ClientsTable) :=
  match t.rows.find? (fun r => r.id == id) with
  | none => .error .P2025
  | some c =>
    .ok (c, ⟨t.rows.filter (fun r => r.id != id), t.nextId⟩)

/-- Modelled from the spec: `prisma.clients.count()`. -/
def clientsCount (t : ClientsTable) : Nat :=
  t.rows.length

/-- Run a list of row-producing actions sequentially, threading the table;
the first error aborts. -/
def runActions :
    List (ClientsTable → Except PrismaError (Client × ClientsTable)) →
    ClientsTable → Except PrismaError (List Client × ClientsTable)
  | [], t => .ok ([], t)
  | a :: rest, t =>
    match a t with
    | .error e => .error e
    | .ok (c, t') =>
      match runActions rest t' with
      | .error e => .error e
      | .ok (cs, t'') => .ok (c :: cs, t'')

/-- Modelled from the spec: `prisma.$transaction([...])` — executes the
given writes as one atomic unit: if any action fails, the table is left
exactly as it was (full rollback) and the underlying error is surfaced;
otherwise all effects commit. -/
def prismaTransaction
    (actions : List (ClientsTable → Except PrismaError (Client × ClientsTable)))
    (t : ClientsTable) : Except PrismaError (List Client) × ClientsTable :=
  match runActions actions t with
  | .error e => (.error e, t)
  | .ok (cs, t') => (.ok cs, t')

/-! ### ClientsRepository — ORM-style path (src/modules/clients/clients.repository.ts) -/

namespace ClientsRepository

/-- `findAll()`: `prisma.clients.findMany({orderBy: {created_at: 'desc'}})`. -/
def findAll (t : ClientsTable) : List Client :=
  clientsFindMany t

/-- `findById(id)`: `prisma.clients.findUnique({where: {id}})`. -/
def findById (id : Nat) (t : ClientsTable) : Option Client :=
  clientsFindUnique id t

/-- `create(data)`: builds the payload `{name: data.name, metadata: data.metadata}`
and calls `prisma.clients.create`. -/
def create (now : Nat) (data : CreateClientsDto) (t : ClientsTable) :
    Except PrismaError (Client × ClientsTable) :=
  clientsCreate now data.name data.metadata t

/-- JS truthiness of `data.name` in the spread `...(data.name && {name: data.name})`:
the `name` key is included only when the string is defined and non-empty. -/
def truthyName (name : Option String) : Option String :=
  match name with
  | some n => if n = "" then none else some n
  | none => none

/-- `update(id, data)`: calls `prisma.clients.update` with
`{...(data.name && {name: data.name}), ...(data.metadata !== undefined && {metadata: data.metadata})}`,
catching error code `P2025` as `null`; any other error is rethrown. -/
def update (now : Nat) (id : Nat) (data : UpdateClientsDto) (t : ClientsTable) :
    Except PrismaError (Option Client) × ClientsTable :=
  match clientsUpdate now id (truthyName data.name) data.metadata t with
  | .ok (c, t') => (.ok (some c), t')
  | .error .P2025 => (.ok none, t)
  | .error e => (.error e, t)

/-- `delete(id)`: calls `prisma.clients.delete`, returning `true` on success,
`false` when the catch sees error code `P2025`; any other error is rethrown. -/
def delete (id : Nat) (t : ClientsTable) :
    Except PrismaError Bool × ClientsTable :=
  match clientsDelete id t with
  | .ok (_, t') => (.ok true, t')
  | .error .P2025 => (.ok false, t)
  | .error e => (.error e, t)

/-- `count()`: `prisma.clients.count()`. -/
def count (t : ClientsTable) : Nat :=
  clientsCount t

/-! ### ClientsRepository — raw-SQL path -/

/-- `findAllRaw()`: `SELECT id, name, metadata, created_at, updated_at FROM clients
ORDER BY created_at DESC`. -/
def findAllRaw (t : ClientsTable) : List Client :=
  orderByCreatedAtDesc t.rows

/-- `findByIdRaw(id)`: `SELECT ... FROM clients WHERE id = ${id}`, then
`result[0] || null`. -/
def findByIdRaw (id : Nat) (t : ClientsTable) : Option Client :=
  (t.rows.filter (fun r => r.id == id)).head?

/-- `createRaw(data)`: `INSERT INTO clients (name, metadata) VALUES
(${data.name}, ${data.metadata ? JSON.stringify(data.metadata) : null}::jsonb)
RETURNING ...`, then `result[0]`.  A JS-falsy `metadata` (`null`/`undefined`)
inserts SQL NULL, so the stored column is `data.metadata.join`; inserting a
null `name` violates the NOT NULL constraint. -/
def createRaw (now : Nat) (data : CreateClientsDto) (t : ClientsTable) :
    Except PrismaError (Client × ClientsTable) :=
  match data.name with
  | none => .error .notNullViolation
  | some n =>
    let c : Client := ⟨t.nextId, n, data.metadata.join, now, now⟩
    .ok (c, ⟨t.rows ++ [c], t.nextId + 1⟩)

/-- A value pushed onto `updateRaw`'s parameter list (`values: any[]`). -/
inductive SqlValue where
  | text (s : String)
  | null
  | jsonDoc (j : Json)
  | idParam (id : Nat)
deriving Repr

/-- The `updates`/`values` accumulators built by `updateRaw` from the
supplied fields: `name = $1` with the name value when `data.name !== undefined`,
then `metadata = $N::jsonb` (N = `values.length + 1`) with
`data.metadata ? JSON.stringify(data.metadata) : null` when
`data.metadata !== undefined` (`jsonDoc` stands for the serialized document). -/
def updateRawBuild (data : UpdateClientsDto) : List String × List SqlValue :=
  let acc1 : List String × List SqlValue :=
    match data.name with
    | some n => (["name = $1"], [SqlValue.text n])
    | none => ([], [])
  match data.metadata with
  | some m =>
    (acc1.1 ++ ["metadata = $" ++ toString (acc1.2.length + 1) ++ "::jsonb"],
     acc1.2 ++ [match m with | some j => SqlValue.jsonDoc j | none => SqlValue.null])
  | none => acc1

/-- The SQL text `updateRaw` builds when `updates` is non-empty (the exact
template literal, `SET` clause joined with `', '`, id placeholder
`$(values.length + 1)`). -/
def updateRawQueryText (updates : List String) (values : List SqlValue) : String :=
  "\n            UPDATE clients\n            SET " ++
    String.intercalate ", " updates ++
    ", updated_at = NOW()\n            WHERE id = $" ++
    toString (values.length + 1) ++
    "\n            RETURNING id, name, metadata, created_at, updated_at\n        "

/-- The query `updateRaw` sends to `$queryRawUnsafe`: `none` when no field is
supplied (the function returns `this.findById(id)` instead); otherwise the SQL
text together with the final parameter list (`values.push(id)` last). -/
def updateRawQuery (id : Nat) (data : UpdateClientsDto) :
    Option (String × List SqlValue) :=
  let acc := updateRawBuild data
  if acc.1.isEmpty then none
  else some (updateRawQueryText acc.1 acc.2, acc.2 ++ [SqlValue.idParam id])

/-- Database semantics of the generated `UPDATE clients SET ... , updated_at =
NOW() WHERE id = $k RETURNING ...` statement: every matching row gets the
supplied fields and the refreshed timestamp; the returned rows are the updated
matches. -/
def sqlUpdateClients (now : Nat) (id : Nat) (uname : Option String)
    (umeta : Option (Option Json)) (t : ClientsTable) :
    List Client × ClientsTable :=
  ((t.rows.filter (fun r => r.id == id)).map (applyUpdate now uname umeta),
   ⟨t.rows.map (fun r => if r.id == id then applyUpdate now uname umeta r else r),
    t.nextId⟩)

/-- `updateRaw(id, data)`: builds `updates`/`values` from the supplied fields;
when `updates.length === 0` it returns `this.findById(id)` (no write);
otherwise it runs the generated UPDATE and returns `result[0] || null`. -/
def updateRaw (now : Nat) (id : Nat) (data : UpdateClientsDto) (t : ClientsTable) :
    Option Client × ClientsTable :=
  if (updateRawBuild data).1.isEmpty then (findById id t, t)
  else
    let run := sqlUpdateClients now id data.name data.metadata t
    (run.1.head?, run.2)

/-- `deleteRaw(id)`: `DELETE FROM clients WHERE id = ${id}` via `$executeRaw`,
then `result > 0` where `result` is the affected-row count. -/
def deleteRaw (id : Nat) (t : ClientsTable) : Bool × ClientsTable :=
  let affected := t.rows.countP (fun r => r.id == id)
  (decide (affected > 0), ⟨t.rows.filter (fun r => r.id != id), t.nextId⟩)

/-- `createMultiple(clients)`: `prisma.$transaction(clients.map(client =>
prisma.clients.create({data: {name: client.name, metadata: client.metadata}})))`. -/
def createMultiple (now : Nat) (clients : List CreateClientsDto) (t : ClientsTable) :
    Except PrismaError (List Client) × ClientsTable :=
  prismaTransaction
    (clients.map (fun client => clientsCreate now client.name client.metadata)) t

end ClientsRepository

/-! ### ClientsService — business-logic layer (clients.service.ts) -/

/-- An error escaping the service layer: either the `NotFoundException`
the service itself throws, or a persistence fault from the repository
passing through untouched (the service has no catch blocks). -/
inductive ServiceError where
  | notFoundException (msg : String)
  | persistence (e : PrismaError)
deriving Repr, DecidableEq

namespace ClientsService

/-- The message of the `NotFoundException` thrown by the service. -/
def notFoundMsg (id : Nat) : String :=
  "Client with ID " ++ toString id ++ " not found"

/-- `ClientsService.findById(id)`: awaits `clientsRepository.findById(id)`
(whose settled outcome — value or rejection — is `repoRes`); throws
`NotFoundException` when the client is null, otherwise returns it.  A
rejected repository promise propagates, there is no catch. -/
def findById (id : Nat) (repoRes : Except PrismaError (Option Client)) :
    Except ServiceError Client :=
  match repoRes with
  | .error e => .error (.persistence e)
  | .ok none => .error (.notFoundException (notFoundMsg id))
  | .ok (some c) => .ok c

/-- `ClientsService.update(id, dto)`: first `await this.findById(id)` (the
existence check, settled outcome `findRes`), then
`clientsRepository.update(id, dto)` (settled outcome `updRes`); throws
`NotFoundException` when the repository reports null. -/
def update (id : Nat) (findRes : Except PrismaError (Option Client))
    (updRes : Except PrismaError (Option Client)) : Except ServiceError Client :=
  match ClientsService.findById id findRes with
  | .error e => .error e
  | .ok _ =>
    match updRes with
    | .error e => .error (.persistence e)
    | .ok none => .error (.notFoundException (notFoundMsg id))
    | .ok (some c) => .ok c

/-- `ClientsService.delete(id)`: first `await this.findById(id)`, then
`clientsRepository.delete(id)`; throws `NotFoundException` when the
repository returns `false`. -/
def delete (id : Nat) (findRes : Except PrismaError (Option Client))
    (delRes : Except PrismaError Bool) : Except ServiceError Unit :=
  match ClientsService.findById id findRes with
  | .error e => .error e
  | .ok _ =>
    match delRes with
    | .error e => .error (.persistence e)
    | .ok false => .error (.notFoundException (notFoundMsg id))
    | .ok true => .ok ()

end ClientsService

/-! ### Helper lemmas -/

/-- `find?` returns the head of the filtered list. -/
theorem find?_eq_head?_filter {α : Type} (p : α → Bool) (l : List α) :
    l.find? p = (l.filter p).head? := by
  induction l with
  | nil => rfl
  | cons a l ih =>
    rw [List.find?_cons, List.filter_cons]
    cases h : p a
    · exact ih
    · rfl

/-- A conditional rewrite that fires on no element leaves the list unchanged. -/
theorem map_if_eq_self {α : Type} (p : α → Bool) (f : α → α) (l : List α)
    (h : ∀ a ∈ l, p a = false) :
    l.map (fun a => if p a then f a else a) = l := by
  induction l with
  | nil => rfl
  | cons a l ih =>
    have ha := h a (List.mem_cons_self a l)
    have ihh := ih (fun b hb => h b (List.mem_cons_of_mem a hb))
    simp [ha, ihh]

/-- Deleting rows whose key matches nothing leaves the list unchanged. -/
theorem filter_bne_eq_self (id : Nat) (l : List Client)
    (h : ∀ r ∈ l, (r.id == id) = false) :
    l.filter (fun r => r.id != id) = l := by
  induction l with
  | nil => rfl
  | cons a l ih =>
    have ha := h a (List.mem_cons_self a l)
    have ihh := ih (fun b hb => h b (List.mem_cons_of_mem a hb))
    have hb : (a.id != id) = true := by simp [bne, ha]
    rw [List.filter_cons, if_pos hb, ihh]

/-- Propositional variant of `map_if_eq_self`. -/
theorem map_ite_eq_self {α : Type} (q : α → Prop) [DecidablePred q] (f : α → α)
    (l : List α) (h : ∀ a ∈ l, ¬ q a) :
    l.map (fun a => if q a then f a else a) = l := by
  induction l with
  | nil => rfl
  | cons a l ih =>
    have ha := h a (List.mem_cons_self a l)
    have ihh := ih (fun b hb => h b (List.mem_cons_of_mem a hb))
    simp [ha, ihh]

/-- An id absent from every row makes `find?` miss. -/
theorem find?_id_eq_none (id : Nat) (l : List Client)
    (h : ∀ r ∈ l, r.id ≠ id) :
    l.find? (fun r => r.id == id) = none := by
  rw [List.find?_eq_none]
  intro r hr
  simpa using h r hr

/-- A raw UPDATE whose id predicate matches no row returns no rows and
leaves the table unchanged. -/
theorem sqlUpdateClients_no_match (now id : Nat) (uname : Option String)
    (umeta : Option (Option Json)) (t : ClientsTable)
    (h : ∀ r ∈ t.rows, (r.id == id) = false) :
    ClientsRepository.sqlUpdateClients now id uname umeta t = ([], t) := by
  unfold ClientsRepository.sqlUpdateClients
  have hfilter : t.rows.filter (fun r => r.id == id) = [] :=
    List.filter_eq_nil_iff.mpr (by intro r hr; simp [h r hr])
  have hmap := map_if_eq_self (fun r => r.id == id) (applyUpdate now uname umeta) t.rows h
  rw [hfilter, hmap]
  rfl

/-! ### C2 — empty partial update degrades to a plain read -/

/-- C2: with a `partialFields` value supplying no fields at all, both
repository update paths perform no write: each returns exactly the
find-by-id result for the id and leaves every record of the store (its
`updated_at` included) unchanged. -/
theorem update_empty_fields_is_plain_read (now id : Nat) (t : ClientsTable) :
    ClientsRepository.update now id ⟨none, none⟩ t =
      (.ok (ClientsRepository.findById id t), t) ∧
    ClientsRepository.updateRaw now id ⟨none, none⟩ t =
      (ClientsRepository.findById id t, t) := by
  constructor
  · unfold ClientsRepository.update ClientsRepository.findById
    unfold clientsUpdate clientsFindUnique ClientsRepository.truthyName
    cases h : t.rows.find? (fun r => r.id == id) <;> simp [h]
  · rfl

/-! ### C3 — operations on an absent id: absent/false, no error, no change -/

/-- C3: for an id matching no record, `findById`/`findByIdRaw` return
absent, `update`/`updateRaw` return absent, `delete`/`deleteRaw` return
false, none of the calls raises an error (every fallible result is `.ok`),
and each call leaves the store unchanged. -/
theorem absent_id_behaviour (now id : Nat) (t : ClientsTable)
    (d : UpdateClientsDto) (habs : ∀ r ∈ t.rows, r.id ≠ id) :
    ClientsRepository.findById id t = none ∧
    ClientsRepository.findByIdRaw id t = none ∧
    ClientsRepository.update now id d t = (.ok none, t) ∧
    ClientsRepository.updateRaw now id d t = (none, t) ∧
    ClientsRepository.delete id t = (.ok false, t) ∧
    ClientsRepository.deleteRaw id t = (false, t) := by
  have hfind := find?_id_eq_none id t.rows habs
  have hmatch : ∀ r ∈ t.rows, (r.id == id) = false := by
    intro r hr
    simpa using habs r hr
  have hfid : ClientsRepository.findById id t = none := by
    simpa [ClientsRepository.findById, clientsFindUnique] using hfind
  have hfilter : t.rows.filter (fun r => r.id == id) = [] :=
    List.filter_eq_nil_iff.mpr (by intro r hr; simp [hmatch r hr])
  refine ⟨hfid, ?_, ?_, ?_, ?_, ?_⟩
  · simp [ClientsRepository.findByIdRaw, hfilter]
  · unfold ClientsRepository.update clientsUpdate
    simp [hfind]
  · unfold ClientsRepository.updateRaw
    by_cases hb : (ClientsRepository.updateRawBuild d).1.isEmpty
    · simp [hb, hfid]
    · rw [if_neg hb, sqlUpdateClients_no_match now id d.name d.metadata t hmatch]
      rfl
  · unfold ClientsRepository.delete clientsDelete
    simp [hfind]
  · unfold ClientsRepository.deleteRaw
    have hcount : t.rows.countP (fun r => r.id == id) = 0 :=
      List.countP_eq_zero.mpr (by intro r hr; simp [hmatch r hr])
    have hkeep := filter_bne_eq_self id t.rows hmatch
    simp [hcount, hkeep]

/-- Witness for C3 at a concrete input: a one-row table and a missing id. -/
theorem absent_id_behaviour_witness :
    ClientsRepository.update 7 3 ⟨some "B", none⟩ ⟨[⟨0, "A", none, 1, 1⟩], 1⟩ =
      (.ok none, ⟨[⟨0, "A", none, 1, 1⟩], 1⟩) ∧
    ClientsRepository.deleteRaw 3 ⟨[⟨0, "A", none, 1, 1⟩], 1⟩ =
      (false, ⟨[⟨0, "A", none, 1, 1⟩], 1⟩) := by
  have h := absent_id_behaviour 7 3 ⟨[⟨0, "A", none, 1, 1⟩], 1⟩ ⟨some "B", none⟩
    (by intro r hr; simp at hr; simp [hr])
  exact ⟨h.2.2.1, h.2.2.2.2.2⟩

/-! ### C4 — explicit-null metadata is distinct from omitted metadata -/

/-- With the targeted row found, a raw UPDATE returns exactly the updated
row and rewrites the matching rows in place. -/
theorem sqlUpdateClients_found (now id : Nat) (uname : Option String)
    (umeta : Option (Option Json)) (t : ClientsTable) (c : Client)
    (hc : t.rows.find? (fun r => r.id == id) = some c) :
    (ClientsRepository.sqlUpdateClients now id uname umeta t).1.head? =
      some (applyUpdate now uname umeta c) := by
  unfold ClientsRepository.sqlUpdateClients
  rw [List.head?_map, ← find?_eq_head?_filter, hc]
  rfl

/-- C4: for a record present in the store, updating with `{metadata: null}`
clears the stored metadata to null while leaving `name` unchanged, in both
the ORM path and the raw-SQL path; whereas any update whose `metadata`
field is omitted leaves every record's metadata at its prior value, again
in both paths. -/
theorem explicit_null_metadata_distinct (now id : Nat) (t : ClientsTable)
    (c : Client) (hc : t.rows.find? (fun r => r.id == id) = some c) :
    (ClientsRepository.update now id ⟨none, some none⟩ t).1 =
      .ok (some ⟨c.id, c.name, none, c.created_at, now⟩) ∧
    (ClientsRepository.updateRaw now id ⟨none, some none⟩ t).1 =
      some ⟨c.id, c.name, none, c.created_at, now⟩ ∧
    (∀ d : UpdateClientsDto, d.metadata = none →
      (ClientsRepository.update now id d t).2.rows.map Client.metadata =
        t.rows.map Client.metadata) ∧
    (∀ d : UpdateClientsDto, d.metadata = none →
      (ClientsRepository.updateRaw now id d t).2.rows.map Client.metadata =
        t.rows.map Client.metadata) := by
  refine ⟨?_, ?_, ?_, ?_⟩
  · unfold ClientsRepository.update clientsUpdate
    rw [hc]
    rfl
  · unfold ClientsRepository.updateRaw
    rw [if_neg (by simp [ClientsRepository.updateRawBuild])]
    exact sqlUpdateClients_found now id none (some none) t c hc
  · intro d hd
    unfold ClientsRepository.update clientsUpdate
    rw [hc]
    cases hn : ClientsRepository.truthyName d.name with
    | none => simp [hd]
    | some n =>
      rw [hd]
      simp only [List.map_map]
      refine List.map_congr_left ?_
      intro r _
      by_cases hr : (r.id == id) = true <;>
        simp [Function.comp, hr, applyUpdate, hd]
  · intro d hd
    unfold ClientsRepository.updateRaw
    by_cases hb : (ClientsRepository.updateRawBuild d).1.isEmpty
    · rw [if_pos hb]
    · rw [if_neg hb]
      unfold ClientsRepository.sqlUpdateClients
      simp only [List.map_map]
      refine List.map_congr_left ?_
      intro r _
      by_cases hr : (r.id == id) = true <;>
        simp [Function.comp, hr, applyUpdate, hd]

/-- Witness for C4 at a concrete one-row table. -/
theorem explicit_null_metadata_distinct_witness :
    (ClientsRepository.update 9 0 ⟨none, some none⟩
        ⟨[⟨0, "A", some (Json.obj [("x", Json.num 1)]), 1, 1⟩], 1⟩).1 =
      .ok (some ⟨0, "A", none, 1, 9⟩) ∧
    (ClientsRepository.updateRaw 9 0 ⟨none, some none⟩
        ⟨[⟨0, "A", some (Json.obj [("x", Json.num 1)]), 1, 1⟩], 1⟩).1 =
      some ⟨0, "A", none, 1, 9⟩ := by
  have h := explicit_null_metadata_distinct 9 0
    ⟨[⟨0, "A", some (Json.obj [("x", Json.num 1)]), 1, 1⟩], 1⟩
    ⟨0, "A", some (Json.obj [("x", Json.num 1)]), 1, 1⟩ (by rfl)
  exact ⟨h.1, h.2.1⟩

/-! ### C5 — partial update changes only `name` and `updated_at` -/

/-- Looking up a freshly appended row finds it when no earlier row carries
its id. -/
theorem find?_append_fresh (id : Nat) (l : List Client) (c : Client)
    (hfresh : ∀ r ∈ l, r.id ≠ id) (hc : c.id = id) :
    (l ++ [c]).find? (fun r => r.id == id) = some c := by
  rw [List.find?_append, find?_id_eq_none id l hfresh]
  simp [hc]

/-- C5: after creating a record with `name="A"` and `metadata={x:1}`,
updating it with `{name:"B"}` (metadata omitted) rewrites exactly that
record to carry `name="B"` and the new `updated_at`, keeping its `id`,
`created_at` and `metadata={x:1}`, and leaves every other record of the
store untouched. -/
theorem partial_update_preserves_untouched_fields (t : ClientsTable)
    (now now' : Nat) (hfresh : ∀ r ∈ t.rows, r.id ≠ t.nextId) :
    ClientsRepository.create now
        ⟨some "A", some (some (Json.obj [("x", Json.num 1)]))⟩ t =
      .ok (⟨t.nextId, "A", some (Json.obj [("x", Json.num 1)]), now, now⟩,
        ⟨t.rows ++ [⟨t.nextId, "A", some (Json.obj [("x", Json.num 1)]), now, now⟩],
         t.nextId + 1⟩) ∧
    ClientsRepository.update now' t.nextId ⟨some "B", none⟩
        ⟨t.rows ++ [⟨t.nextId, "A", some (Json.obj [("x", Json.num 1)]), now, now⟩],
         t.nextId + 1⟩ =
      (.ok (some ⟨t.nextId, "B", some (Json.obj [("x", Json.num 1)]), now, now'⟩),
       ⟨t.rows ++ [⟨t.nextId, "B", some (Json.obj [("x", Json.num 1)]), now, now'⟩],
        t.nextId + 1⟩) := by
  constructor
  · rfl
  · have hmatch : ∀ r ∈ t.rows, (r.id == t.nextId) = false := by
      intro r hr
      simp [hfresh r hr]
    have hfind := find?_append_fresh t.nextId t.rows
      ⟨t.nextId, "A", some (Json.obj [("x", Json.num 1)]), now, now⟩ hfresh rfl
    have hmap := map_if_eq_self (fun r => r.id == t.nextId)
      (applyUpdate now' (some "B") none) t.rows hmatch
    unfold ClientsRepository.update clientsUpdate ClientsRepository.truthyName
    simp only [hfind, List.map_append, hmap]
    simp [applyUpdate]
    exact map_ite_eq_self (fun r => r.id = t.nextId)
      (fun r => ⟨r.id, "B", r.metadata, r.created_at, now'⟩) t.rows hfresh

/-- Witness for C5 on the empty store. -/
theorem partial_update_preserves_untouched_fields_witness :
    ClientsRepository.update 2 0 ⟨some "B", none⟩
        ⟨[⟨0, "A", some (Json.obj [("x", Json.num 1)]), 1, 1⟩], 1⟩ =
      (.ok (some ⟨0, "B", some (Json.obj [("x", Json.num 1)]), 1, 2⟩),
       ⟨[⟨0, "B", some (Json.obj [("x", Json.num 1)]), 1, 2⟩], 1⟩) := by
  have h := partial_update_preserves_untouched_fields ⟨[], 0⟩ 1 2 (by simp)
  simpa using h.2

/-! ### C8 — create/findById round trip -/

/-- C8: a successful `create(name, metadata)` returns a record carrying the
input name, a stored metadata deep-equal to the input document (SQL NULL
when omitted or explicitly null), and `created_at = updated_at = now`; a
`findById` on the returned record's id then yields exactly that record. -/
theorem create_findById_round_trip (now : Nat) (t : ClientsTable)
    (dto : CreateClientsDto) (n : String) (hname : dto.name = some n)
    (hfresh : ∀ r ∈ t.rows, r.id ≠ t.nextId) :
    ClientsRepository.create now dto t =
      .ok (⟨t.nextId, n, dto.metadata.join, now, now⟩,
           ⟨t.rows ++ [⟨t.nextId, n, dto.metadata.join, now, now⟩], t.nextId + 1⟩) ∧
    ClientsRepository.findById t.nextId
        ⟨t.rows ++ [⟨t.nextId, n, dto.metadata.join, now, now⟩], t.nextId + 1⟩ =
      some ⟨t.nextId, n, dto.metadata.join, now, now⟩ := by
  constructor
  · unfold ClientsRepository.create clientsCreate
    rw [hname]
  · unfold ClientsRepository.findById clientsFindUnique
    exact find?_append_fresh t.nextId t.rows _ hfresh rfl

/-- Witness for C8: create on the empty store with a concrete document. -/
theorem create_findById_round_trip_witness :
    ClientsRepository.create 4 ⟨some "Acme", some (some (Json.obj [("tier", Json.str "gold")]))⟩ ⟨[], 7⟩ =
      .ok (⟨7, "Acme", some (Json.obj [("tier", Json.str "gold")]), 4, 4⟩,
           ⟨[⟨7, "Acme", some (Json.obj [("tier", Json.str "gold")]), 4, 4⟩], 8⟩) ∧
    ClientsRepository.findById 7
        ⟨[⟨7, "Acme", some (Json.obj [("tier", Json.str "gold")]), 4, 4⟩], 8⟩ =
      some ⟨7, "Acme", some (Json.obj [("tier", Json.str "gold")]), 4, 4⟩ := by
  have h := create_findById_round_trip 4 ⟨[], 7⟩
    ⟨some "Acme", some (some (Json.obj [("tier", Json.str "gold")]))⟩ "Acme" rfl (by simp)
  simpa using h

/-! ### C10 — a falsy name is dropped by the ORM path, written by the raw path -/

/-- The JS-truthiness filter never yields the empty string. -/
theorem truthyName_ne_empty (dn : Option String) (n : String)
    (h : ClientsRepository.truthyName dn = some n) : n ≠ "" := by
  cases dn with
  | none => simp [ClientsRepository.truthyName] at h
  | some m =>
    by_cases hm : m = ""
    · simp [ClientsRepository.truthyName, hm] at h
    · simp only [ClientsRepository.truthyName, if_neg hm] at h
      cases h
      exact hm

/-- The store an ORM-style update leaves behind is either untouched or the
row-wise rewrite of the matching rows. -/
theorem update_store_cases (now id : Nat) (d : UpdateClientsDto) (t : ClientsTable) :
    (ClientsRepository.update now id d t).2 = t ∨
    (ClientsRepository.update now id d t).2 =
      ⟨t.rows.map (fun r => if r.id == id then
          applyUpdate now (ClientsRepository.truthyName d.name) d.metadata r else r),
       t.nextId⟩ := by
  unfold ClientsRepository.update clientsUpdate
  cases hfind : t.rows.find? (fun r => r.id == id) <;>
    cases hn : ClientsRepository.truthyName d.name <;>
    cases hm : d.metadata <;>
    simp [hfind, hn, hm]

/-- C10: a `name` field supplied as the empty string is treated by the
ORM-style `update` exactly as if it were omitted — the call equals the same
call with `name` absent, and no record's stored name changes — while
`updateRaw` on `{name: ""}` writes the empty string into the row; moreover
no ORM-style update whatsoever can make the empty string appear as a stored
name that was not already present. -/
theorem falsy_name_treated_as_omitted (now id : Nat) (t : ClientsTable) :
    (∀ d : UpdateClientsDto, d.name = some "" →
      ClientsRepository.update now id d t =
        ClientsRepository.update now id ⟨none, d.metadata⟩ t) ∧
    (∀ d : UpdateClientsDto, d.name = some "" →
      (ClientsRepository.update now id d t).2.rows.map Client.name =
        t.rows.map Client.name) ∧
    (∀ c, t.rows.find? (fun r => r.id == id) = some c →
      (ClientsRepository.updateRaw now id ⟨some "", none⟩ t).1 =
        some ⟨c.id, "", c.metadata, c.created_at, now⟩) ∧
    (∀ (d : UpdateClientsDto) (r : Client),
      r ∈ (ClientsRepository.update now id d t).2.rows → r.name = "" →
      ∃ r₀ ∈ t.rows, r₀.name = "") := by
  have hnames : ∀ (d : UpdateClientsDto) (r : Client),
      r ∈ (ClientsRepository.update now id d t).2.rows → r.name = "" →
      ∃ r₀ ∈ t.rows, r₀.name = "" := by
    intro d r hr hname
    cases update_store_cases now id d t with
    | inl hstore =>
      rw [hstore] at hr
      exact ⟨r, hr, hname⟩
    | inr hstore =>
      rw [hstore] at hr
      obtain ⟨r₀, hr₀, hif⟩ := List.mem_map.mp hr
      by_cases hid : (r₀.id == id) = true
      · rw [if_pos hid] at hif
        rw [← hif] at hname
        cases hn : ClientsRepository.truthyName d.name with
        | none =>
          simp only [applyUpdate, hn] at hname
          exact ⟨r₀, hr₀, hname⟩
        | some n =>
          simp only [applyUpdate, hn] at hname
          exact absurd hname (truthyName_ne_empty d.name n hn)
      · rw [if_neg hid] at hif
        subst hif
        exact ⟨r₀, hr₀, hname⟩
  refine ⟨?_, ?_, ?_, hnames⟩
  · rintro ⟨dn, dm⟩ hname
    simp only at hname
    subst hname
    rfl
  · rintro ⟨dn, dm⟩ hname
    simp only at hname
    subst hname
    have htn : ClientsRepository.truthyName (some "") = none := by
      simp [ClientsRepository.truthyName]
    unfold ClientsRepository.update clientsUpdate
    rw [htn]
    cases hfind : t.rows.find? (fun r => r.id == id) with
    | none => rfl
    | some c =>
      cases dm with
      | none => rfl
      | some m =>
        simp only [List.map_map]
        refine List.map_congr_left ?_
        intro r _
        by_cases hr : (r.id == id) = true <;>
          simp [Function.comp, hr, applyUpdate]
  · intro c hc
    unfold ClientsRepository.updateRaw
    rw [if_neg (by simp [ClientsRepository.updateRawBuild])]
    exact sqlUpdateClients_found now id (some "") none t c hc

/-- Witness for C10 on a concrete one-row table. -/
theorem falsy_name_treated_as_omitted_witness :
    ClientsRepository.update 5 0 ⟨some "", some none⟩ ⟨[⟨0, "A", none, 0, 0⟩], 1⟩ =
      ClientsRepository.update 5 0 ⟨none, some none⟩ ⟨[⟨0, "A", none, 0, 0⟩], 1⟩ ∧
    (ClientsRepository.updateRaw 5 0 ⟨some "", none⟩ ⟨[⟨0, "A", none, 0, 0⟩], 1⟩).1 =
      some ⟨0, "", none, 0, 5⟩ := by
  have h := falsy_name_treated_as_omitted 5 0 ⟨[⟨0, "A", none, 0, 0⟩], 1⟩
  exact ⟨h.1 ⟨some "", some none⟩ rfl, h.2.2.1 ⟨0, "A", none, 0, 0⟩ rfl⟩

/-! ### C9 — the raw UPDATE text depends only on field presence -/

/-- C9: the SQL text `updateRaw` builds is a function of which fields are
supplied, never of their values or the id (two calls with the same present
fields yield character-identical text); the parameter list always binds the
id last after exactly the built field values; and per presence case the text
is the fixed template whose `SET` clause lists exactly the supplied fields
followed by the `updated_at` refresh — values appear nowhere in the text,
only in the parameter list. -/
theorem updateRaw_sql_presence_only :
    (∀ (id id' : Nat) (d d' : UpdateClientsDto),
      d.name.isSome = d'.name.isSome → d.metadata.isSome = d'.metadata.isSome →
      (ClientsRepository.updateRawQuery id d).map Prod.fst =
        (ClientsRepository.updateRawQuery id' d').map Prod.fst) ∧
    (∀ (id : Nat) (d : UpdateClientsDto) (q : String)
        (vs : List ClientsRepository.SqlValue),
      ClientsRepository.updateRawQuery id d = some (q, vs) →
      vs = (ClientsRepository.updateRawBuild d).2 ++
        [ClientsRepository.SqlValue.idParam id]) ∧
    (∀ (id : Nat) (d : UpdateClientsDto) (n : String),
      d.name = some n → d.metadata = none →
      (ClientsRepository.updateRawQuery id d).map Prod.fst =
        some "\n            UPDATE clients\n            SET name = $1, updated_at = NOW()\n            WHERE id = $2\n            RETURNING id, name, metadata, created_at, updated_at\n        ") ∧
    (∀ (id : Nat) (d : UpdateClientsDto) (m : Option Json),
      d.name = none → d.metadata = some m →
      (ClientsRepository.updateRawQuery id d).map Prod.fst =
        some "\n            UPDATE clients\n            SET metadata = $1::jsonb, updated_at = NOW()\n            WHERE id = $2\n            RETURNING id, name, metadata, created_at, updated_at\n        ") ∧
    (∀ (id : Nat) (d : UpdateClientsDto) (n : String) (m : Option Json),
      d.name = some n → d.metadata = some m →
      (ClientsRepository.updateRawQuery id d).map Prod.fst =
        some "\n            UPDATE clients\n            SET name = $1, metadata = $2::jsonb, updated_at = NOW()\n            WHERE id = $3\n            RETURNING id, name, metadata, created_at, updated_at\n        ") ∧
    (∀ (id : Nat) (d : UpdateClientsDto),
      d.name = none → d.metadata = none →
      ClientsRepository.updateRawQuery id d = none) := by
  refine ⟨?_, ?_, ?_, ?_, ?_, ?_⟩
  · rintro id id' ⟨dn, dm⟩ ⟨dn', dm'⟩ hn hm
    cases dn <;> cases dn' <;> cases dm <;> cases dm' <;>
      simp_all [ClientsRepository.updateRawQuery, ClientsRepository.updateRawBuild,
        ClientsRepository.updateRawQueryText]
  · rintro id ⟨dn, dm⟩ q vs hq
    cases dn <;> cases dm <;>
      simp [ClientsRepository.updateRawQuery, ClientsRepository.updateRawBuild,
        ClientsRepository.updateRawQueryText] at hq ⊢ <;>
      exact hq.2.symm
  · rintro id ⟨dn, dm⟩ n hn hm
    simp only at hn hm
    subst hn hm
    simp [ClientsRepository.updateRawQuery, ClientsRepository.updateRawBuild,
      ClientsRepository.updateRawQueryText]
    rfl
  · rintro id ⟨dn, dm⟩ m hn hm
    simp only at hn hm
    subst hn hm
    simp [ClientsRepository.updateRawQuery, ClientsRepository.updateRawBuild,
      ClientsRepository.updateRawQueryText]
    rfl
  · rintro id ⟨dn, dm⟩ n m hn hm
    simp only at hn hm
    subst hn hm
    simp [ClientsRepository.updateRawQuery, ClientsRepository.updateRawBuild,
      ClientsRepository.updateRawQueryText]
    rfl
  · rintro id ⟨dn, dm⟩ hn hm
    simp only at hn hm
    subst hn hm
    rfl

/-- Witness for C9: value independence and the two-field template at
concrete inputs. -/
theorem updateRaw_sql_presence_only_witness :
    (ClientsRepository.updateRawQuery 3 ⟨some "alice", none⟩).map Prod.fst =
      (ClientsRepository.updateRawQuery 9 ⟨some "bob; DROP TABLE clients", none⟩).map Prod.fst ∧
    (ClientsRepository.updateRawQuery 3 ⟨some "a", some (some (Json.num 1))⟩).map Prod.fst =
      some "\n            UPDATE clients\n            SET name = $1, metadata = $2::jsonb, updated_at = NOW()\n            WHERE id = $3\n            RETURNING id, name, metadata, created_at, updated_at\n        " := by
  exact ⟨updateRaw_sql_presence_only.1 3 9 ⟨some "alice", none⟩
      ⟨some "bob; DROP TABLE clients", none⟩ rfl rfl,
    updateRaw_sql_presence_only.2.2.2.2.1 3 ⟨some "a", some (some (Json.num 1))⟩
      "a" (some (Json.num 1)) rfl rfl⟩

/-! ### C7 — service-level not-found translation and fault passthrough -/

/-- C7: for each of the service operations `findById`, `update` and
`delete`, the outcome is the `NotFoundException` naming the id exactly when
the repository reports the record absent (for `delete`, when the existence
check reports absent or nothing was actually deleted); a repository fault
(`.error e`) passes through the service unchanged in every position, never
swallowed or retried; and a found/updated/deleted outcome is returned as-is.
The exception message names the id verbatim. -/
theorem service_translates_absent_to_notfound :
    ∀ (id : Nat) (e : PrismaError) (c c' : Client)
      (updRes : Except PrismaError (Option Client))
      (delRes : Except PrismaError Bool),
    ClientsService.notFoundMsg id = "Client with ID " ++ toString id ++ " not found" ∧
    ClientsService.findById id (.error e) = .error (.persistence e) ∧
    ClientsService.findById id (.ok none) =
      .error (.notFoundException (ClientsService.notFoundMsg id)) ∧
    ClientsService.findById id (.ok (some c)) = .ok c ∧
    ClientsService.update id (.error e) updRes = .error (.persistence e) ∧
    ClientsService.update id (.ok none) updRes =
      .error (.notFoundException (ClientsService.notFoundMsg id)) ∧
    ClientsService.update id (.ok (some c)) (.error e) = .error (.persistence e) ∧
    ClientsService.update id (.ok (some c)) (.ok none) =
      .error (.notFoundException (ClientsService.notFoundMsg id)) ∧
    ClientsService.update id (.ok (some c)) (.ok (some c')) = .ok c' ∧
    ClientsService.delete id (.error e) delRes = .error (.persistence e) ∧
    ClientsService.delete id (.ok none) delRes =
      .error (.notFoundException (ClientsService.notFoundMsg id)) ∧
    ClientsService.delete id (.ok (some c)) (.error e) = .error (.persistence e) ∧
    ClientsService.delete id (.ok (some c)) (.ok false) =
      .error (.notFoundException (ClientsService.notFoundMsg id)) ∧
    ClientsService.delete id (.ok (some c)) (.ok true) = .ok () := by
  intro id e c c' updRes delRes
  exact ⟨rfl, rfl, rfl, rfl, rfl, rfl, rfl, rfl, rfl, rfl, rfl, rfl, rfl, rfl⟩

/-! ### C6 — createMultiple commits all rows or none -/

/-- When every batched insert is valid, running the mapped creates appends
exactly one row per input, in input order, with server-assigned consecutive
ids and both timestamps equal to the insertion time. -/
theorem runActions_creates_ok (now : Nat) (dtos : List CreateClientsDto) :
    ∀ t : ClientsTable, (∀ d ∈ dtos, d.name ≠ none) →
    ∃ cs : List Client,
      runActions (dtos.map (fun d => clientsCreate now d.name d.metadata)) t =
        .ok (cs, ⟨t.rows ++ cs, t.nextId + cs.length⟩) ∧
      cs.length = dtos.length ∧
      cs.map Client.name = dtos.map (fun d => d.name.getD "") ∧
      cs.map Client.metadata = dtos.map (fun d => d.metadata.join) ∧
      (∀ c ∈ cs, c.created_at = now ∧ c.updated_at = now) := by
  induction dtos with
  | nil =>
    intro t _
    exact ⟨[], by simp [runActions], rfl, rfl, rfl, by simp⟩
  | cons d rest ih =>
    intro t h
    have hd := h d (List.mem_cons_self d rest)
    cases hn : d.name with
    | none => exact absurd hn hd
    | some n =>
      obtain ⟨cs, hrun, hlen, hnames, hmetas, htimes⟩ :=
        ih ⟨t.rows ++ [⟨t.nextId, n, d.metadata.join, now, now⟩], t.nextId + 1⟩
          (fun d' hd' => h d' (List.mem_cons_of_mem d hd'))
      refine ⟨⟨t.nextId, n, d.metadata.join, now, now⟩ :: cs, ?_, ?_, ?_, ?_, ?_⟩
      · have hc : clientsCreate now d.name d.metadata t =
            .ok (⟨t.nextId, n, d.metadata.join, now, now⟩,
                 ⟨t.rows ++ [⟨t.nextId, n, d.metadata.join, now, now⟩], t.nextId + 1⟩) := by
          rw [hn]
          rfl
        show runActions (clientsCreate now d.name d.metadata ::
            rest.map (fun d => clientsCreate now d.name d.metadata)) t = _
        unfold runActions
        rw [hc]
        show (match runActions (rest.map (fun d => clientsCreate now d.name d.metadata))
            ⟨t.rows ++ [⟨t.nextId, n, d.metadata.join, now, now⟩], t.nextId + 1⟩ with
          | .error e => (.error e : Except PrismaError (List Client × ClientsTable))
          | .ok (cs, t'') => .ok (⟨t.nextId, n, d.metadata.join, now, now⟩ :: cs, t'')) = _
        rw [hrun]
        have hrows : (t.rows ++ [⟨t.nextId, n, d.metadata.join, now, now⟩]) ++ cs =
            t.rows ++ ⟨t.nextId, n, d.metadata.join, now, now⟩ :: cs := by
          simp
        have hnext : t.nextId + 1 + cs.length = t.nextId + (cs.length + 1) := by
          omega
        simp only [hrows, hnext, List.length_cons]
      · simp [hlen]
      · simp [hnames, hn]
      · simp [hmetas]
      · intro c hc
        cases hc with
        | head => exact ⟨rfl, rfl⟩
        | tail _ hc => exact htimes c hc

/-- One invalid insert (a null `name`) makes the whole run fail with the
underlying NOT NULL violation. -/
theorem runActions_creates_err (now : Nat) (dtos : List CreateClientsDto) :
    ∀ t : ClientsTable, (∃ d ∈ dtos, d.name = none) →
    runActions (dtos.map (fun d => clientsCreate now d.name d.metadata)) t =
      .error .notNullViolation := by
  induction dtos with
  | nil =>
    intro t h
    obtain ⟨d, hd, _⟩ := h
    cases hd
  | cons d rest ih =>
    intro t h
    cases hn : d.name with
    | none =>
      have hc : clientsCreate now d.name d.metadata t =
          .error .notNullViolation := by
        rw [hn]
        rfl
      show runActions (clientsCreate now d.name d.metadata ::
          rest.map (fun d => clientsCreate now d.name d.metadata)) t = _
      unfold runActions
      rw [hc]
    | some n =>
      obtain ⟨d', hd', hnone⟩ := h
      have hd'rest : d' ∈ rest := by
        cases hd' with
        | head => exact absurd hn (by rw [hnone]; exact fun hx => by cases hx)
        | tail _ hmem => exact hmem
      have hc : clientsCreate now d.name d.metadata t =
          .ok (⟨t.nextId, n, d.metadata.join, now, now⟩,
               ⟨t.rows ++ [⟨t.nextId, n, d.metadata.join, now, now⟩], t.nextId + 1⟩) := by
        rw [hn]
        rfl
      show runActions (clientsCreate now d.name d.metadata ::
          rest.map (fun d => clientsCreate now d.name d.metadata)) t = _
      unfold runActions
      rw [hc]
      show (match runActions (rest.map (fun d => clientsCreate now d.name d.metadata))
          ⟨t.rows ++ [⟨t.nextId, n, d.metadata.join, now, now⟩], t.nextId + 1⟩ with
        | .error e => (.error e : Except PrismaError (List Client × ClientsTable))
        | .ok (cs, t'') => .ok (⟨t.nextId, n, d.metadata.join, now, now⟩ :: cs, t'')) = _
      have hih := ih
        (⟨t.rows ++ [⟨t.nextId, n, d.metadata.join, now, now⟩], t.nextId + 1⟩ : ClientsTable)
        ⟨d', hd'rest, hnone⟩
      rw [hih]

/-- C6: `createMultiple` is atomic.  If every input is valid, all records
are committed (appended in input order to the store) and returned in that
order, one per input, carrying the input names and metadata and the common
insertion timestamps.  If any single insert is invalid, the call surfaces
the underlying persistence error, the store is exactly the one before the
call, and `count()` is unchanged. -/
theorem createMultiple_atomic (now : Nat) (dtos : List CreateClientsDto)
    (t : ClientsTable) :
    ((∀ d ∈ dtos, d.name ≠ none) →
      ∃ cs : List Client,
        ClientsRepository.createMultiple now dtos t =
          (.ok cs, ⟨t.rows ++ cs, t.nextId + cs.length⟩) ∧
        cs.length = dtos.length ∧
        cs.map Client.name = dtos.map (fun d => d.name.getD "") ∧
        cs.map Client.metadata = dtos.map (fun d => d.metadata.join) ∧
        (∀ c ∈ cs, c.created_at = now ∧ c.updated_at = now)) ∧
    ((∃ d ∈ dtos, d.name = none) →
      ClientsRepository.createMultiple now dtos t = (.error .notNullViolation, t) ∧
      ClientsRepository.count (ClientsRepository.createMultiple now dtos t).2 =
        ClientsRepository.count t) := by
  constructor
  · intro h
    obtain ⟨cs, hrun, rest⟩ := runActions_creates_ok now dtos t h
    refine ⟨cs, ?_, rest⟩
    unfold ClientsRepository.createMultiple prismaTransaction
    rw [hrun]
  · intro h
    have hrun := runActions_creates_err now dtos t h
    have heq : ClientsRepository.createMultiple now dtos t =
        (.error .notNullViolation, t) := by
      unfold ClientsRepository.createMultiple prismaTransaction
      rw [hrun]
    exact ⟨heq, by rw [heq]⟩

/-- Witness for C6: a fully valid batch commits both rows; a batch with an
invalid second element leaves the store and its count untouched. -/
theorem createMultiple_atomic_witness :
    (∃ cs : List Client,
      ClientsRepository.createMultiple 3 [⟨some "A", none⟩] ⟨[], 0⟩ =
        (.ok cs, ⟨[] ++ cs, 0 + cs.length⟩) ∧
      cs.length = [(⟨some "A", none⟩ : CreateClientsDto)].length ∧
      cs.map Client.name =
        [(⟨some "A", none⟩ : CreateClientsDto)].map (fun d => d.name.getD "") ∧
      cs.map Client.metadata =
        [(⟨some "A", none⟩ : CreateClientsDto)].map (fun d => d.metadata.join) ∧
      (∀ c ∈ cs, c.created_at = 3 ∧ c.updated_at = 3)) ∧
    ClientsRepository.createMultiple 3 [⟨some "A", none⟩, ⟨none, none⟩] ⟨[], 0⟩ =
      (.error .notNullViolation, ⟨[], 0⟩) := by
  constructor
  · exact (createMultiple_atomic 3 [⟨some "A", none⟩] ⟨[], 0⟩).1
      (by
        intro d hd
        rw [List.mem_singleton.mp hd]
        exact fun hx => by cases hx)
  · exact ((createMultiple_atomic 3 [⟨some "A", none⟩, ⟨none, none⟩] ⟨[], 0⟩).2
      ⟨⟨none, none⟩, List.mem_cons_of_mem _ (List.mem_cons_self _ _), rfl⟩).1

/-! ### C1 — equivalence of the ORM-style and raw-SQL repository paths -/

/-- C1 counterexample: on the update input `{name: ""}` the two paths
disagree.  The ORM path drops the JS-falsy name (the spread adds no field)
and returns the row unchanged, while the raw path treats
`name !== undefined` as supplied and writes the empty name (refreshing
`updated_at`): at the same one-row store the two returned records differ. -/
theorem repo_update_paths_diverge_on_empty_name :
    (ClientsRepository.update 5 0 ⟨some "", none⟩ ⟨[⟨0, "A", none, 0, 0⟩], 1⟩).1 =
      .ok (some ⟨0, "A", none, 0, 0⟩) ∧
    (ClientsRepository.updateRaw 5 0 ⟨some "", none⟩ ⟨[⟨0, "A", none, 0, 0⟩], 1⟩).1 =
      some ⟨0, "", none, 0, 5⟩ ∧
    (⟨0, "A", none, 0, 0⟩ : Client) ≠ ⟨0, "", none, 0, 5⟩ := by
  refine ⟨rfl, rfl, ?_⟩
  intro h
  injection h with h1 h2 h3 h4 h5
  exact absurd h2 (by decide)

/-- C1 (amended): the two repository implementations behave identically on
every CRUD intent and input, except that the ORM-style `update` treats a
supplied empty-string `name` as omitted while `updateRaw` writes it:
`findAll`/`findAllRaw` return the same sequence, `findById`/`findByIdRaw`
the same record-or-absent, `create`/`createRaw` the same record and store,
`delete`/`deleteRaw` the same boolean and store, and for every update input
whose `name`, if supplied, is non-empty, `update`/`updateRaw` return the
same record-or-absent and the same resulting store. -/
theorem repo_paths_equivalent_except_falsy_name (now id : Nat) (t : ClientsTable)
    (data : CreateClientsDto) (d : UpdateClientsDto) :
    ClientsRepository.findAll t = ClientsRepository.findAllRaw t ∧
    ClientsRepository.findById id t = ClientsRepository.findByIdRaw id t ∧
    ClientsRepository.create now data t = ClientsRepository.createRaw now data t ∧
    (d.name ≠ some "" →
      ClientsRepository.update now id d t =
        (.ok (ClientsRepository.updateRaw now id d t).1,
         (ClientsRepository.updateRaw now id d t).2)) ∧
    ClientsRepository.delete id t =
      (.ok (ClientsRepository.deleteRaw id t).1, (ClientsRepository.deleteRaw id t).2) := by
  refine ⟨rfl, ?_, ?_, ?_, ?_⟩
  · exact find?_eq_head?_filter (fun r => r.id == id) t.rows
  · obtain ⟨dn, dm⟩ := data
    cases dn <;> rfl
  · intro hne
    obtain ⟨dn, dm⟩ := d
    have htn : ClientsRepository.truthyName dn = dn := by
      cases dn with
      | none => rfl
      | some n =>
        have hn' : n ≠ "" := fun hx => hne (by rw [hx])
        simp [ClientsRepository.truthyName, hn']
    unfold ClientsRepository.update clientsUpdate ClientsRepository.updateRaw
    rw [htn]
    cases dn with
    | none =>
      cases dm with
      | none =>
        cases hfind : t.rows.find? (fun r => r.id == id) with
        | none =>
          simp [hfind, ClientsRepository.findById, clientsFindUnique,
            ClientsRepository.updateRawBuild]
        | some c =>
          simp [hfind, ClientsRepository.findById, clientsFindUnique,
            ClientsRepository.updateRawBuild]
      | some m =>
        cases hfind : t.rows.find? (fun r => r.id == id) with
        | none =>
          have hall : ∀ r ∈ t.rows, (r.id == id) = false := fun r hr => by
            simpa using List.find?_eq_none.mp hfind r hr
          simp [hfind, ClientsRepository.updateRawBuild,
            sqlUpdateClients_no_match now id none (some m) t hall]
        | some c =>
          have hhead := sqlUpdateClients_found now id none (some m) t c hfind
          simp [hfind, ClientsRepository.updateRawBuild, hhead,
            ClientsRepository.sqlUpdateClients, ← find?_eq_head?_filter]
    | some n =>
      cases dm with
      | none =>
        cases hfind : t.rows.find? (fun r => r.id == id) with
        | none =>
          have hall : ∀ r ∈ t.rows, (r.id == id) = false := fun r hr => by
            simpa using List.find?_eq_none.mp hfind r hr
          simp [hfind, ClientsRepository.updateRawBuild,
            sqlUpdateClients_no_match now id (some n) none t hall]
        | some c =>
          have hhead := sqlUpdateClients_found now id (some n) none t c hfind
          simp [hfind, ClientsRepository.updateRawBuild, hhead,
            ClientsRepository.sqlUpdateClients, ← find?_eq_head?_filter]
      | some m =>
        cases hfind : t.rows.find? (fun r => r.id == id) with
        | none =>
          have hall : ∀ r ∈ t.rows, (r.id == id) = false := fun r hr => by
            simpa using List.find?_eq_none.mp hfind r hr
          simp [hfind, ClientsRepository.updateRawBuild,
            sqlUpdateClients_no_match now id (some n) (some m) t hall]
        | some c =>
          have hhead := sqlUpdateClients_found now id (some n) (some m) t c hfind
          simp [hfind, ClientsRepository.updateRawBuild, hhead,
            ClientsRepository.sqlUpdateClients, ← find?_eq_head?_filter]
  · unfold ClientsRepository.delete clientsDelete ClientsRepository.deleteRaw
    cases hfind : t.rows.find? (fun r => r.id == id) with
    | none =>
      have hall : ∀ r ∈ t.rows, (r.id == id) = false := fun r hr => by
        simpa using List.find?_eq_none.mp hfind r hr
      have hc0 : t.rows.countP (fun r => r.id == id) = 0 :=
        List.countP_eq_zero.mpr (by intro r hr; simp [hall r hr])
      have hkeep := filter_bne_eq_self id t.rows hall
      simp [hfind, hc0, hkeep]
    | some c =>
      have hpc : (c.id == id) = true :=
        @List.find?_some Client (fun r => r.id == id) c t.rows hfind
      have hpos : 0 < t.rows.countP (fun r => r.id == id) :=
        List.countP_pos_iff.mpr ⟨c, List.mem_of_find?_eq_some hfind, hpc⟩
      have hdec : decide (t.rows.countP (fun r => r.id == id) > 0) = true :=
        decide_eq_true hpos
      simp [hfind, hdec]
      exact ⟨c, List.mem_of_find?_eq_some hfind, by simpa using hpc⟩

/-- Witness for C1 (amended) on a concrete store: the update pair agrees on
a non-empty supplied name, and the delete pair agrees. -/
theorem repo_paths_equivalent_except_falsy_name_witness :
    ClientsRepository.update 5 0 ⟨some "B", none⟩ ⟨[⟨0, "A", none, 0, 0⟩], 1⟩ =
      (.ok (ClientsRepository.updateRaw 5 0 ⟨some "B", none⟩ ⟨[⟨0, "A", none, 0, 0⟩], 1⟩).1,
       (ClientsRepository.updateRaw 5 0 ⟨some "B", none⟩ ⟨[⟨0, "A", none, 0, 0⟩], 1⟩).2) ∧
    ClientsRepository.delete 0 ⟨[⟨0, "A", none, 0, 0⟩], 1⟩ =
      (.ok (ClientsRepository.deleteRaw 0 ⟨[⟨0, "A", none, 0, 0⟩], 1⟩).1,
       (ClientsRepository.deleteRaw 0 ⟨[⟨0, "A", none, 0, 0⟩], 1⟩).2) := by
  have h := repo_paths_equivalent_except_falsy_name 5 0 ⟨[⟨0, "A", none, 0, 0⟩], 1⟩
    ⟨some "X", none⟩ ⟨some "B", none⟩
  exact ⟨h.2.2.2.1 (by decide), h.2.2.2.2⟩
